import Mathlib

/-! ipfs-get: fetching, verifying and extracting a CAR export.

A shallow embedding of `src/index.js`.  The program asks an IPFS node for the
CAR export of a DAG (`fetchCar`), looks blocks up in the decoded CAR through a
block service that is meant to check every block against its CID
(`verifyingBlockService.get`, `isValid`), and writes the entries the UnixFS
exporter yields to disk (`extractCar`).

Conventions of the embedding:

* a JavaScript string is a `List Char` (`Str`); a `Uint8Array` is a `List Byte`;
* `undefined` is `none`;
* a thrown `Error` is a value of `Failure`; an `async` function that is *called
  but not awaited* yields a `Promise`, which is an object like any other;
* the mutable `count` of `ipfsGet` is passed in and returned explicitly;
* the imported library functions the program calls (`bytes.toHex`, `sha256`,
  `String.prototype.split`, `Array.prototype.join`, `new URL`) are modelled
  next to the functions of `src/index.js` that use them.
-/

namespace IpfsGet

/-! ## Data model -/

/-- A JavaScript string. -/
abbrev Str := List Char

/-- One element of a `Uint8Array`. -/
abbrev Byte := Fin 256

/-- The `multihash` field of a CID: the hash algorithm code and the digest. -/
structure MultihashDigest where
  code : Nat
  digest : List Byte
deriving DecidableEq, Repr

/-- A content identifier: version, codec code and multihash. -/
structure CID where
  version : Nat
  code : Nat
  multihash : MultihashDigest
deriving DecidableEq, Repr

/-- A block as `carReader.get` returns it: `{ cid, bytes }`. -/
structure Block where
  cid : CID
  bytes : List Byte
deriving DecidableEq, Repr

/-- A hasher of `multiformats`: its multihash `code` and its hash function. -/
structure Hasher where
  code : Nat
  encode : List Byte → List Byte

/-- The method `hasher.digest(bytes)`: the digest of the input, tagged with the hasher's code. -/
def Hasher.digest (hasher : Hasher) (input : List Byte) : MultihashDigest :=
  ⟨hasher.code, hasher.encode input⟩

/-- The errors the program throws. -/
inductive Failure where
  /-- The error `Bad block. Hash does not match CID ${cid}` of `verifyingBlockService.get`. -/
  | badBlock (cid : CID)
  /-- The error `Missing hash function for ${cid.multihash.code}` of `isValid`. -/
  | missingHashFunction (code : Nat)
  /-- The `TypeError` of destructuring `{ cid, bytes }` from `undefined`. -/
  | destructureUndefined
  /-- The error of `fetchCar`, carrying its message. -/
  | transport (message : Str)
  /-- A rejection of `fetch` itself (no response). -/
  | network
deriving DecidableEq, Repr

/-- The promise an `async` function returns when it is called. -/
inductive Promise (α : Type) where
  | fulfilled (value : α)
  | rejected (reason : Failure)
deriving DecidableEq, Repr

/-- ECMAScript `ToBoolean` of a promise: a promise is an object, and every object is truthy,
whether it is fulfilled with `false` or rejected. -/
def Promise.toBoolean {α : Type} (_ : Promise α) : Bool := true

/-- ECMAScript `ToBoolean` of a value that is `undefined` or a string: `undefined` and the
empty string are falsy, every other string is truthy. -/
def toBoolean : Option Str → Bool
  | none => false
  | some [] => false
  | some (_ :: _) => true

/-! ## `bytes.toHex` -/

/-- The method `byte.toString(16)` on a non-negative integer: lower-case hexadecimal digits. -/
def toString16 (n : Nat) : Str := Nat.toDigits 16 n

/-- The method `s.padStart(targetLength, fill)` with a one-character fill string. -/
def padStart (s : Str) (targetLength : Nat) (fill : Char) : Str :=
  List.replicate (targetLength - s.length) fill ++ s

/-- The function `toHex` of `multiformats/bytes`:
`d.reduce((hex, byte) => hex + byte.toString(16).padStart(2, '0'), '')`. -/
def toHex (d : List Byte) : Str :=
  d.foldl (fun hex byte => hex ++ padStart (toString16 byte.val) 2 '0') []

/-! ## `sha256` (FIPS 180-4), the one hasher the program registers -/

/-- The round constants of SHA-256. -/
def sha256K : List Nat := [
  0x428a2f98, 0x71374491, 0xb5c0fbcf, 0xe9b5dba5, 0x3956c25b, 0x59f111f1, 0x923f82a4, 0xab1c5ed5,
  0xd807aa98, 0x12835b01, 0x243185be, 0x550c7dc3, 0x72be5d74, 0x80deb1fe, 0x9bdc06a7, 0xc19bf174,
  0xe49b69c1, 0xefbe4786, 0x0fc19dc6, 0x240ca1cc, 0x2de92c6f, 0x4a7484aa, 0x5cb0a9dc, 0x76f988da,
  0x983e5152, 0xa831c66d, 0xb00327c8, 0xbf597fc7, 0xc6e00bf3, 0xd5a79147, 0x06ca6351, 0x14292967,
  0x27b70a85, 0x2e1b2138, 0x4d2c6dfc, 0x53380d13, 0x650a7354, 0x766a0abb, 0x81c2c92e, 0x92722c85,
  0xa2bfe8a1, 0xa81a664b, 0xc24b8b70, 0xc76c51a3, 0xd192e819, 0xd6990624, 0xf40e3585, 0x106aa070,
  0x19a4c116, 0x1e376c08, 0x2748774c, 0x34b0bcb5, 0x391c0cb3, 0x4ed8aa4a, 0x5b9cca4f, 0x682e6ff3,
  0x748f82ee, 0x78a5636f, 0x84c87814, 0x8cc70208, 0x90befffa, 0xa4506ceb, 0xbef9a3f7, 0xc67178f2]

/-- The initial hash value of SHA-256. -/
def sha256H0 : List Nat := [
  0x6a09e667, 0xbb67ae85, 0x3c6ef372, 0xa54ff53a, 0x510e527f, 0x9b05688c, 0x1f83d9ab, 0x5be0cd19]

/-- Addition of 32-bit words. -/
def add32 (x y : Nat) : Nat := (x + y) % 2 ^ 32

/-- Rotation of a 32-bit word to the right by `n` bits. -/
def rotr32 (x n : Nat) : Nat := (x >>> n ||| x <<< (32 - n)) % 2 ^ 32

/-- Bitwise complement of a 32-bit word. -/
def not32 (x : Nat) : Nat := 2 ^ 32 - 1 - x % 2 ^ 32

/-- The function Σ0 of SHA-256. -/
def bigSigma0 (x : Nat) : Nat := rotr32 x 2 ^^^ rotr32 x 13 ^^^ rotr32 x 22

/-- The function Σ1 of SHA-256. -/
def bigSigma1 (x : Nat) : Nat := rotr32 x 6 ^^^ rotr32 x 11 ^^^ rotr32 x 25

/-- The function σ0 of SHA-256. -/
def smallSigma0 (x : Nat) : Nat := rotr32 x 7 ^^^ rotr32 x 18 ^^^ x >>> 3

/-- The function σ1 of SHA-256. -/
def smallSigma1 (x : Nat) : Nat := rotr32 x 17 ^^^ rotr32 x 19 ^^^ x >>> 10

/-- The function Ch of SHA-256. -/
def ch (x y z : Nat) : Nat := (x &&& y) ^^^ (not32 x &&& z)

/-- The function Maj of SHA-256. -/
def maj (x y z : Nat) : Nat := (x &&& y) ^^^ (x &&& z) ^^^ (y &&& z)

/-- The padded message: the bytes, `0x80`, zero bytes up to 56 modulo 64, and the bit length
as a 64-bit big-endian integer. -/
def sha256Pad (msg : List Byte) : List Nat :=
  let len := msg.length
  let zeros := (119 - len % 64) % 64
  let bits := 8 * len
  msg.map Fin.val ++ [0x80] ++ List.replicate zeros 0 ++
    (List.range 8).map (fun i => bits / 256 ^ (7 - i) % 256)

/-- The big-endian word of a list of bytes. -/
def word32 (b : List Nat) : Nat :=
  b.foldl (fun acc x => acc * 256 + x) 0

/-- The sixteen 32-bit words of a 64-byte block. -/
def sha256Words (block : List Nat) : List Nat :=
  (List.range 16).map (fun i => word32 ((block.drop (4 * i)).take 4))

/-- The message schedule: the sixteen words of the block extended to sixty-four. -/
def sha256Schedule (w : List Nat) : List Nat :=
  (List.range 48).foldl
    (fun w t =>
      w ++ [add32 (add32 (smallSigma1 (w.getD (t + 14) 0)) (w.getD (t + 9) 0))
                  (add32 (smallSigma0 (w.getD (t + 1) 0)) (w.getD t 0))])
    w

/-- One round of the compression function on the working variables `a` to `h`, with the
round constant and the schedule word `kw`. -/
def sha256Round (s : List Nat) (kw : Nat × Nat) : List Nat :=
  match s with
  | [a, b, c, d, e, f, g, h] =>
    let t1 := add32 (add32 (add32 h (bigSigma1 e)) (add32 (ch e f g) kw.1)) kw.2
    let t2 := add32 (bigSigma0 a) (maj a b c)
    [add32 t1 t2, a, b, c, add32 d t1, e, f, g]
  | _ => s

/-- The compression function: sixty-four rounds, then the sum with the previous hash value. -/
def sha256Compress (h : List Nat) (block : List Nat) : List Nat :=
  let w := sha256Schedule (sha256Words block)
  List.zipWith add32 h ((sha256K.zip w).foldl sha256Round h)

/-- The SHA-256 digest of a byte sequence (32 bytes). -/
def sha256Encode (msg : List Byte) : List Byte :=
  let padded := sha256Pad msg
  let blocks := (List.range (padded.length / 64)).map (fun i => (padded.drop (64 * i)).take 64)
  let h := blocks.foldl sha256Compress sha256H0
  h.flatMap (fun x => (List.range 4).map (fun i => Fin.ofNat (x / 256 ^ (3 - i))))

/-- The hasher `sha256` of `multiformats/hashes/sha2`: multihash code `0x12`. -/
def sha256 : Hasher := ⟨0x12, sha256Encode⟩

/-! ## `src/index.js` -/

/-- The registry `hashes = { [sha256.code]: sha256 }`, read as `hashes[code]`. -/
def hashes (code : Nat) : Option Hasher :=
  if code = sha256.code then some sha256 else none

/-- The async function `isValid({ cid, bytes })` (lines 99-106), as the promise a call of it
returns.  Destructuring `undefined` and a missing hash function reject the promise; otherwise
it is fulfilled with the comparison of the two hex strings. -/
def isValid : Option Block → Promise Bool
  | none => .rejected .destructureUndefined
  | some ⟨cid, bytes⟩ =>
    match hashes cid.multihash.code with
    | none => .rejected (.missingHashFunction cid.multihash.code)
    | some hashfn =>
      let hash := hashfn.digest bytes
      .fulfilled (decide (toHex hash.digest = toHex cid.multihash.digest))

/-- The decoded CAR file, seen through its lookup `carReader.get(cid)`, which yields the
block or `undefined`. -/
structure CarReader where
  get : CID → Option Block

/-- The method `verifyingBlockService.get` (lines 51-58) with the counter `count` of `ipfsGet`
before the call; the result is what the call returns or throws, and the counter after it.
The condition is `!isValid(res)`: the promise `isValid` returns is negated as it is, it is
not awaited. -/
def verifyingBlockService.get (carReader : CarReader) (count : Nat) (cid : CID) :
    Except Failure (Option Block) × Nat :=
  let res := carReader.get cid
  if !(isValid res).toBoolean then
    (.error (.badBlock cid), count)
  else
    (.ok res, count + 1)

/-- The counter after the exporter has called `verifyingBlockService.get` on each CID of a
list in turn, starting from `count`; a call that throws ends the run. -/
def countAfter (carReader : CarReader) : Nat → List CID → Nat
  | count, [] => count
  | count, cid :: rest =>
    match verifyingBlockService.get carReader count cid with
    | (.ok _, count') => countAfter carReader count' rest
    | (.error _, count') => count'

/-- The method `s.split(sep)` with a one-character separator: the pieces between the
occurrences of the separator, at least one piece. -/
def split : Str → Char → List Str
  | [], _ => [[]]
  | c :: cs, sep =>
    if c = sep then [] :: split cs sep
    else
      match split cs sep with
      | [] => [[c]]
      | piece :: pieces => (c :: piece) :: pieces

/-- The method `parts.join(sep)`. -/
def join : List Str → Str → Str
  | [], _ => []
  | [a], _ => a
  | a :: b :: rest, sep => a ++ sep ++ join (b :: rest) sep

/-- The assignment `parts[0] = value` on an array. -/
def setFirst (parts : List Str) (value : Str) : List Str :=
  match parts with
  | [] => [value]
  | _ :: rest => value :: rest

/-- The path an entry is written to (lines 71-77 of `extractCar`): `file.path`, or, when
`output` is truthy, `file.path` split at `/` with its first part overwritten by `output` and
joined again. -/
def filePath (output : Option Str) (path : Str) : Str :=
  match output with
  | none => path
  | some out =>
    if toBoolean (some out) then
      let parts := split path '/'
      let parts := setFirst parts out
      join parts ['/']
    else path

/-- The `type` of an entry the UnixFS exporter yields. -/
inductive EntryType where
  | file
  | directory
  | object
  | raw
  | identity
deriving DecidableEq, Repr

/-- An entry the UnixFS exporter yields: its path, its type and its content. -/
structure Entry where
  path : Str
  type : EntryType
  content : List Byte
deriving DecidableEq, Repr

/-- A write of `extractCar` to the file system. -/
inductive FsOp where
  /-- The call `fs.promises.mkdir(filePath, { recursive: true })`. -/
  | mkdir (path : Str)
  /-- The content piped into `fs.createWriteStream(filePath)`. -/
  | writeFile (path : Str) (content : List Byte)
deriving DecidableEq, Repr

/-- The path a write goes to. -/
def FsOp.path : FsOp → Str
  | .mkdir p => p
  | .writeFile p _ => p

/-- The loop of `extractCar` (lines 70-87) over the entries the exporter yields: one write
per entry, to `filePath`. -/
def extractCar (entries : List Entry) (output : Option Str) : List FsOp :=
  entries.map fun file =>
    let filePath := filePath output file.path
    if file.type = .directory then .mkdir filePath
    else .writeFile filePath file.content

/-- A `URL` object, through its serialisation `href`, which is what a template literal
interpolates. -/
structure URL where
  href : Str
deriving DecidableEq, Repr

/-- The scheme of an `http://` or `https://` input and what follows it. -/
def splitScheme (input : Str) : Option (Str × Str) :=
  if "http://".toList.isPrefixOf input then some ("http://".toList, input.drop 7)
  else if "https://".toList.isPrefixOf input then some ("https://".toList, input.drop 8)
  else none

/-- The constructor `new URL(input)` on the inputs `http://authority` and `https://authority`,
with or without a path that starts with `/`, that are already in serialised form (lower case,
no credentials, default port, dot segments, query or fragment).  The authority runs to the
first `/`; a URL with one of these schemes and no path is serialised with the path `/`,
a path that is there is kept.  Other inputs are outside this model (`none`). -/
def newURL (input : Str) : Option URL :=
  match splitScheme input with
  | none => none
  | some (scheme, rest) =>
    let authority := rest.takeWhile (· ≠ '/')
    let path := rest.dropWhile (· ≠ '/')
    if authority = [] then none
    else some ⟨scheme ++ authority ++ (if path = [] then ['/'] else path)⟩

/-- The interpolation `${n}` of a non-negative integer: its decimal digits. -/
def toString10 (n : Nat) : Str := Nat.toDigits 10 n

/-- A request of `fetch(url, { method })`. -/
structure Request where
  url : Str
  method : Str
deriving DecidableEq, Repr

/-- The fields of a response that `fetchCar` reads. -/
structure Response where
  status : Nat
  statusText : Str
  body : List Byte
deriving DecidableEq, Repr

/-- The function `fetchCar(cid, gateway)` (lines 90-97) over the `fetch` it calls: the
requests it issued, and the body it returns or the error it throws. -/
def fetchCar (fetch : Request → Except Failure Response) (cid : Str) (gateway : URL) :
    List Request × Except Failure (List Byte) :=
  let url := gateway.href ++ "api/v0/dag/export?arg=".toList ++ cid
  let request : Request := ⟨url, "POST".toList⟩
  match fetch request with
  | .error e => ([request], .error e)
  | .ok res =>
    if res.status > 400 then
      ([request], .error (.transport
        (toString10 res.status ++ " ".toList ++ res.statusText ++ " ".toList ++ url)))
    else
      ([request], .ok res.body)


/-! ## Concrete blocks and readers -/

/-- The bytes of a string of ASCII characters. -/
def asciiBytes (s : String) : List Byte :=
  s.toList.map fun c => Fin.ofNat c.toNat

/-- A CAR reader over a list of blocks: the first block stored under the CID, if any. -/
def readerOf (blocks : List Block) : CarReader :=
  ⟨fun cid => blocks.find? fun block => decide (block.cid = cid)⟩

/-- The SHA-256 digest of the three bytes `abc`
(`ba7816bf 8f01cfea 414140de 5dae2223 b00361a3 96177a9c b410ff61 f20015ad`). -/
def abcDigest : List Byte := [
  0xba, 0x78, 0x16, 0xbf, 0x8f, 0x01, 0xcf, 0xea, 0x41, 0x41, 0x40, 0xde, 0x5d, 0xae, 0x22, 0x23,
  0xb0, 0x03, 0x61, 0xa3, 0x96, 0x17, 0x7a, 0x9c, 0xb4, 0x10, 0xff, 0x61, 0xf2, 0x00, 0x15, 0xad]

/-- The CIDv1 of the raw block `abc` (codec `0x55`, multihash sha2-256 `0x12`). -/
def abcCid : CID := ⟨1, 0x55, ⟨0x12, abcDigest⟩⟩

/-- The block `abc` under its own CID. -/
def abcBlock : Block := ⟨abcCid, asciiBytes "abc"⟩

/-- The block `abc` with the lowest bit of its last byte flipped (`abb`), still under the
CID of `abc`. -/
def tamperedBlock : Block := ⟨abcCid, asciiBytes "abb"⟩

/-- A CIDv1 whose multihash names sha2-512 (`0x13`), an algorithm the registry does not hold. -/
def sha512Cid : CID := ⟨1, 0x55, ⟨0x13, List.replicate 64 0⟩⟩

/-- A block under the sha2-512 CID. -/
def sha512Block : Block := ⟨sha512Cid, asciiBytes "abc"⟩

/-- A `fetch` that answers every request with the same response. -/
def respondWith (res : Response) : Request → Except Failure Response :=
  fun _ => .ok res

/-! ## Lemmas on `toHex` -/

set_option maxRecDepth 100000 in
/-- The two hexadecimal digits `toHex` writes for one byte. -/
theorem padStart_toString16 (b : Byte) :
    padStart (toString16 b.val) 2 '0' = [Nat.digitChar (b.val / 16), Nat.digitChar (b.val % 16)] := by
  revert b
  decide

/-- The sixteen hexadecimal digits are distinct characters. -/
theorem digitChar_injective : ∀ i j : Fin 16, Nat.digitChar i.val = Nat.digitChar j.val → i = j := by
  decide

/-- A byte is determined by its two hexadecimal digits. -/
theorem byte_eq_of_digits (a b : Byte)
    (hhi : Nat.digitChar (a.val / 16) = Nat.digitChar (b.val / 16))
    (hlo : Nat.digitChar (a.val % 16) = Nat.digitChar (b.val % 16)) : a = b := by
  have h1 := digitChar_injective ⟨a.val / 16, by omega⟩ ⟨b.val / 16, by omega⟩ hhi
  have h2 := digitChar_injective ⟨a.val % 16, by omega⟩ ⟨b.val % 16, by omega⟩ hlo
  simp only [Fin.mk.injEq] at h1 h2
  apply Fin.ext
  omega

/-- The fold of `toHex` appends the digits of the bytes to what is already written. -/
theorem foldl_toHex (d : List Byte) (acc : Str) :
    d.foldl (fun hex byte => hex ++ padStart (toString16 byte.val) 2 '0') acc = acc ++ toHex d := by
  induction d generalizing acc with
  | nil => simp [toHex]
  | cons b rest ih =>
    simp only [toHex, List.foldl_cons, List.nil_append]
    rw [ih, ih (padStart _ _ _), List.append_assoc]

/-- The hex string of a non-empty byte sequence: two digits, then the rest. -/
theorem toHex_cons (b : Byte) (rest : List Byte) :
    toHex (b :: rest) =
      Nat.digitChar (b.val / 16) :: Nat.digitChar (b.val % 16) :: toHex rest := by
  have h : toHex (b :: rest) = padStart (toString16 b.val) 2 '0' ++ toHex rest := by
    simp only [toHex, List.foldl_cons, List.nil_append]
    rw [foldl_toHex]
    rfl
  rw [h, padStart_toString16]
  rfl

/-- Two byte sequences with the same hex string are the same byte sequence. -/
theorem toHex_injective : ∀ a b : List Byte, toHex a = toHex b → a = b
  | [], [], _ => rfl
  | [], y :: ys, h => by rw [toHex_cons] at h; simp [toHex] at h
  | x :: xs, [], h => by rw [toHex_cons] at h; simp [toHex] at h
  | x :: xs, y :: ys, h => by
    rw [toHex_cons, toHex_cons] at h
    simp only [List.cons.injEq] at h
    obtain ⟨hhi, hlo, hrest⟩ := h
    rw [byte_eq_of_digits x y hhi hlo, toHex_injective xs ys hrest]


/-! ## Lemmas on `split` and `join` -/

/-- The first piece of `split` is the path up to its first `/`, and joining any string with
the later pieces gives that string followed by the path from its first `/` on. -/
theorem split_slash (p : Str) :
    ∃ pieces, split p '/' = p.takeWhile (· ≠ '/') :: pieces ∧
      ∀ x : Str, join (x :: pieces) ['/'] = x ++ p.dropWhile (· ≠ '/') := by
  induction p with
  | nil => exact ⟨[], rfl, fun x => by simp [join]⟩
  | cons c cs ih =>
    obtain ⟨pieces, hsplit, hjoin⟩ := ih
    by_cases hc : c = '/'
    · subst hc
      refine ⟨List.takeWhile (· ≠ '/') cs :: pieces, ?_, fun x => ?_⟩
      · simp [split, hsplit]
      · have h := hjoin (List.takeWhile (· ≠ '/') cs)
        rw [List.takeWhile_append_dropWhile] at h
        simp only [join, h, List.dropWhile_cons, ne_eq, not_true_eq_false, decide_False,
          List.append_assoc, List.singleton_append]
        rfl
    · refine ⟨pieces, ?_, fun x => ?_⟩
      · simp [split, hsplit, hc]
      · simp [hjoin, hc]

/-- The path `filePath` computes under a non-empty override. -/
theorem filePath_some (out p : Str) (hout : out ≠ []) :
    filePath (some out) p = out ++ p.dropWhile (· ≠ '/') := by
  obtain ⟨pieces, hsplit, hjoin⟩ := split_slash p
  cases out with
  | nil => exact absurd rfl hout
  | cons o os => simp [filePath, toBoolean, hsplit, setFirst, hjoin]

/-! ## Lemmas on `verifyingBlockService.get` -/

/-- The block service returns whatever the lookup yields and counts it, on every call. -/
theorem get_eq (carReader : CarReader) (count : Nat) (cid : CID) :
    verifyingBlockService.get carReader count cid = (.ok (carReader.get cid), count + 1) := by
  simp [verifyingBlockService.get, Promise.toBoolean]

/-- The promise of `isValid` on a block whose algorithm is registered. -/
theorem isValid_registered (blk : Block) (hashfn : Hasher)
    (hreg : hashes blk.cid.multihash.code = some hashfn) :
    isValid (some blk) =
      .fulfilled (decide ((hashfn.digest blk.bytes).digest = blk.cid.multihash.digest)) := by
  obtain ⟨cid, bytes⟩ := blk
  simp only [isValid, hreg]
  congr 1
  apply Bool.decide_congr
  exact ⟨toHex_injective _ _, fun h => by rw [h]⟩


/-! ## Test vectors of the SHA-256 model -/

set_option maxRecDepth 100000 in
/-- The model of `sha256` gives the published digest of the empty message. -/
theorem sha256_empty :
    sha256.encode [] = [
      0xe3, 0xb0, 0xc4, 0x42, 0x98, 0xfc, 0x1c, 0x14, 0x9a, 0xfb, 0xf4, 0xc8, 0x99, 0x6f, 0xb9,
      0x24, 0x27, 0xae, 0x41, 0xe4, 0x64, 0x9b, 0x93, 0x4c, 0xa4, 0x95, 0x99, 0x1b, 0x78, 0x52,
      0xb8, 0x55] := by
  decide

set_option maxRecDepth 100000 in
/-- The model of `sha256` gives the published digest of `abc`. -/
theorem sha256_abc : sha256.encode (asciiBytes "abc") = abcDigest := by
  decide

set_option maxRecDepth 100000 in
/-- The tampered payload `abb` does not hash to the digest of `abc`. -/
theorem sha256_abb : sha256.encode (asciiBytes "abb") ≠ abcDigest := by
  decide

/-! ## The claims -/

/-- C1 (the code departs from it): on a block whose payload does not hash to the digest in
its CID, `verifyingBlockService.get` should throw `Bad block`; the code returns the tampered
block and counts it, because the promise of `isValid`, here fulfilled with `false`, is
tested without being awaited. -/
theorem get_returns_tampered_block :
    isValid (some tamperedBlock) = .fulfilled false ∧
    (readerOf [tamperedBlock]).get abcCid = some tamperedBlock ∧
    verifyingBlockService.get (readerOf [tamperedBlock]) 0 abcCid
      = (.ok (some tamperedBlock), 1) := by
  refine ⟨?_, rfl, get_eq _ _ _⟩
  rw [isValid_registered tamperedBlock sha256 rfl]
  exact congrArg _ (decide_eq_false sha256_abb)

/-- C2 (the code departs from it): on a CID whose multihash code is not in the registry,
`verifyingBlockService.get` should fail with `Missing hash function`; the code returns the
block and counts it, because the rejected promise of `isValid` is never awaited. -/
theorem get_returns_block_of_unregistered_algorithm :
    (hashes sha512Cid.multihash.code).isNone = true ∧
    isValid (some sha512Block) = .rejected (.missingHashFunction 0x13) ∧
    verifyingBlockService.get (readerOf [sha512Block]) 0 sha512Cid
      = (.ok (some sha512Block), 1) :=
  ⟨rfl, rfl, get_eq _ _ _⟩

/-- C3 (the code departs from it): on a CID the CAR does not hold, `verifyingBlockService.get`
should fail; the code returns `undefined` and counts the call, because the promise of
`isValid`, rejected by the destructuring of `undefined`, is never awaited. -/
theorem get_returns_undefined_for_missing_block :
    (readerOf []).get abcCid = none ∧
    isValid none = .rejected .destructureUndefined ∧
    verifyingBlockService.get (readerOf []) 0 abcCid = (.ok none, 1) :=
  ⟨rfl, rfl, get_eq _ _ _⟩

/-- C4: when the lookup yields a block stored under the CID, the CID names a registered hash
algorithm and the payload hashes to the digest in the CID, the block passes `isValid` and
`verifyingBlockService.get` returns that very block, unmodified, and counts it. -/
theorem get_returns_valid_block (carReader : CarReader) (count : Nat) (cid : CID)
    (blk : Block) (hashfn : Hasher)
    (hget : carReader.get cid = some blk)
    (hcid : blk.cid = cid)
    (hreg : hashes cid.multihash.code = some hashfn)
    (hdigest : (hashfn.digest blk.bytes).digest = cid.multihash.digest) :
    isValid (carReader.get cid) = .fulfilled true ∧
    verifyingBlockService.get carReader count cid = (.ok (some blk), count + 1) := by
  subst hcid
  refine ⟨?_, by rw [get_eq, hget]⟩
  rw [hget, isValid_registered blk hashfn hreg]
  exact congrArg _ (decide_eq_true hdigest)

/-- C4, at the block `abc` stored under its own CID. -/
theorem get_returns_valid_block_witness :
    (readerOf [abcBlock]).get abcCid = some abcBlock ∧
    hashes abcCid.multihash.code = some sha256 ∧
    (sha256.digest abcBlock.bytes).digest = abcCid.multihash.digest ∧
    isValid ((readerOf [abcBlock]).get abcCid) = .fulfilled true ∧
    verifyingBlockService.get (readerOf [abcBlock]) 0 abcCid = (.ok (some abcBlock), 1) :=
  ⟨rfl, rfl, sha256_abc,
    get_returns_valid_block (readerOf [abcBlock]) 0 abcCid abcBlock sha256 rfl rfl rfl
      sha256_abc⟩

/-- C5: under a non-empty override, an entry is written to its path with the first
`/`-separated segment replaced by the override; the separators and the later segments are
kept, a path without `/` becomes the override, every write of `extractCar` goes to such a
path, and `bafyROOT/sub/file.txt` under the override `out` becomes `out/sub/file.txt`. -/
theorem filePath_override (output p : Str) (hout : output ≠ []) :
    filePath (some output) p = output ++ p.dropWhile (· ≠ '/') ∧
    (∀ segment rest : Str, '/' ∉ segment → p = segment ++ '/' :: rest →
      filePath (some output) p = output ++ '/' :: rest) ∧
    ('/' ∉ p → filePath (some output) p = output) ∧
    (∀ entries : List Entry,
      (extractCar entries (some output)).map FsOp.path
        = entries.map fun file => output ++ file.path.dropWhile (· ≠ '/')) ∧
    filePath (some "out".toList) "bafyROOT/sub/file.txt".toList = "out/sub/file.txt".toList := by
  refine ⟨filePath_some output p hout, ?_, ?_, ?_, by decide⟩
  · intro segment rest hseg hp
    rw [filePath_some output p hout, hp, List.dropWhile_append_of_pos]
    · simp
    · intro c hc
      have hne : c ≠ '/' := fun h => hseg (h ▸ hc)
      simpa using hne
  · intro hp
    rw [filePath_some output p hout]
    have : p.dropWhile (· ≠ '/') = [] := by
      rw [List.dropWhile_eq_nil_iff]
      intro c hc
      have hne : c ≠ '/' := fun h => hp (h ▸ hc)
      simpa using hne
    rw [this, List.append_nil]
  · intro entries
    simp only [extractCar, List.map_map]
    apply List.map_congr_left
    intro file _
    by_cases h : file.type = .directory <;> simp [h, FsOp.path, filePath_some output _ hout]

/-- C5, at the override `out` and the path `bafyROOT/sub/file.txt`. -/
theorem filePath_override_witness :
    "out".toList ≠ [] ∧
    filePath (some "out".toList) "bafyROOT/sub/file.txt".toList
      = "out".toList ++ "bafyROOT/sub/file.txt".toList.dropWhile (· ≠ '/') :=
  ⟨by decide, (filePath_override "out".toList "bafyROOT/sub/file.txt".toList (by decide)).1⟩

/-- C6 (the code departs from it): a response with status 400 is a client error and
`fetchCar` should throw; the code tests `res.status > 400`, so it returns the body of a
response with status 400, while status 401 throws with the status and the URL in the
message. -/
theorem fetchCar_returns_body_on_status_400 (cid : Str) (gateway : URL) (statusText : Str)
    (body : List Byte) :
    (fetchCar (respondWith ⟨400, statusText, body⟩) cid gateway).2 = .ok body ∧
    (fetchCar (respondWith ⟨401, statusText, body⟩) cid gateway).2
      = .error (.transport ("401 ".toList ++ statusText ++ " ".toList ++
          (gateway.href ++ "api/v0/dag/export?arg=".toList ++ cid))) := by
  constructor
  · simp [fetchCar, respondWith]
  · simp only [fetchCar, respondWith]
    rw [if_pos (by decide)]
    have h : toString10 401 = "401".toList := by decide
    simp [h]

/-- C7: for a block whose CID names a registered hash algorithm, `isValid` is fulfilled with
`true` exactly when the recomputed digest and the digest in the CID are the same byte
sequence, and with `false` otherwise, in particular when one is a proper prefix of the other
or they differ at some index; two hex strings of `toHex` are equal exactly when the byte
sequences are. -/
theorem isValid_iff_digest_eq (blk : Block) (hashfn : Hasher)
    (hreg : hashes blk.cid.multihash.code = some hashfn) :
    (isValid (some blk) = .fulfilled true ↔
      (hashfn.digest blk.bytes).digest = blk.cid.multihash.digest) ∧
    (isValid (some blk) = .fulfilled false ↔
      (hashfn.digest blk.bytes).digest ≠ blk.cid.multihash.digest) ∧
    (isValid (some blk) = .fulfilled true ↔
      (hashfn.digest blk.bytes).digest.length = blk.cid.multihash.digest.length ∧
      ∀ i : Nat, (hashfn.digest blk.bytes).digest[i]? = blk.cid.multihash.digest[i]?) ∧
    (∀ extra : List Byte, extra ≠ [] →
      blk.cid.multihash.digest = (hashfn.digest blk.bytes).digest ++ extra →
      isValid (some blk) = .fulfilled false) ∧
    (∀ extra : List Byte, extra ≠ [] →
      (hashfn.digest blk.bytes).digest = blk.cid.multihash.digest ++ extra →
      isValid (some blk) = .fulfilled false) ∧
    (∀ i : Nat, (hashfn.digest blk.bytes).digest[i]? ≠ blk.cid.multihash.digest[i]? →
      isValid (some blk) = .fulfilled false) ∧
    (∀ a b : List Byte, toHex a = toHex b ↔ a = b) := by
  have hv := isValid_registered blk hashfn hreg
  have htrue : isValid (some blk) = .fulfilled true ↔
      (hashfn.digest blk.bytes).digest = blk.cid.multihash.digest := by
    rw [hv]; simp
  have hfalse : isValid (some blk) = .fulfilled false ↔
      (hashfn.digest blk.bytes).digest ≠ blk.cid.multihash.digest := by
    rw [hv]; simp
  refine ⟨htrue, hfalse, ?_, ?_, ?_, ?_, ?_⟩
  · rw [htrue]
    constructor
    · intro h; rw [h]; exact ⟨rfl, fun _ => rfl⟩
    · intro h; exact List.ext_getElem? h.2
  · intro extra hextra h
    rw [hfalse]
    intro heq
    rw [heq] at h
    exact hextra (List.self_eq_append_right.mp h)
  · intro extra hextra h
    rw [hfalse]
    intro heq
    rw [heq] at h
    exact hextra (List.self_eq_append_right.mp h)
  · intro i hi
    rw [hfalse]
    intro heq
    exact hi (by rw [heq])
  · exact fun a b => ⟨toHex_injective a b, fun h => by rw [h]⟩

/-- C7, at the block `abc` stored under its own CID. -/
theorem isValid_iff_digest_eq_witness :
    hashes abcBlock.cid.multihash.code = some sha256 ∧
    (isValid (some abcBlock) = .fulfilled true ↔
      (sha256.digest abcBlock.bytes).digest = abcBlock.cid.multihash.digest) :=
  ⟨rfl, (isValid_iff_digest_eq abcBlock sha256 rfl).1⟩

/-- C8 (the code departs from it): the counter should equal the number of calls whose block
passed verification; after one call on a tampered block, one on a block of an unregistered
algorithm and one on a missing block, none of which passes `isValid`, the counter is 3. -/
theorem count_counts_unverified_calls :
    ([abcCid, sha512Cid, ⟨0, 0x70, ⟨0x12, []⟩⟩].filter fun cid =>
      decide (isValid ((readerOf [tamperedBlock, sha512Block]).get cid) = .fulfilled true)) = [] ∧
    countAfter (readerOf [tamperedBlock, sha512Block]) 0
      [abcCid, sha512Cid, ⟨0, 0x70, ⟨0x12, []⟩⟩] = 3 := by
  refine ⟨?_, by simp [countAfter, get_eq]⟩
  have h1 : (readerOf [tamperedBlock, sha512Block]).get abcCid = some tamperedBlock := rfl
  have h2 : (readerOf [tamperedBlock, sha512Block]).get sha512Cid = some sha512Block := rfl
  have h3 : (readerOf [tamperedBlock, sha512Block]).get ⟨0, 0x70, ⟨0x12, []⟩⟩ = none := rfl
  have h4 : isValid (some sha512Block) = .rejected (.missingHashFunction 0x13) := rfl
  have h5 : isValid none = .rejected .destructureUndefined := rfl
  have h6 : isValid (some tamperedBlock) = .fulfilled false := by
    rw [isValid_registered tamperedBlock sha256 rfl]
    exact congrArg _ (decide_eq_false sha256_abb)
  simp [List.filter, h1, h2, h3, h4, h5, h6]

/-- C9 (the code departs from it): for the endpoint `http://host/prefix` the one `POST`
request should go to `http://host/prefix/api/v0/dag/export?arg=<cid>`; the code appends
`api/v0/dag/export?arg=` to the serialised URL without a `/`, so the request goes to
`http://host/prefixapi/v0/dag/export?arg=<cid>`.  For the default endpoint, which the URL
serialiser ends with `/`, the request goes where it should. -/
theorem fetchCar_request_under_path_endpoint (fetch : Request → Except Failure Response) :
    newURL "http://host/prefix".toList = some ⟨"http://host/prefix".toList⟩ ∧
    (fetchCar fetch "bafy".toList ⟨"http://host/prefix".toList⟩).1
      = [⟨"http://host/prefixapi/v0/dag/export?arg=bafy".toList, "POST".toList⟩] ∧
    newURL "http://127.0.0.1:5001".toList = some ⟨"http://127.0.0.1:5001/".toList⟩ ∧
    (fetchCar fetch "bafy".toList ⟨"http://127.0.0.1:5001/".toList⟩).1
      = [⟨"http://127.0.0.1:5001/api/v0/dag/export?arg=bafy".toList, "POST".toList⟩] := by
  refine ⟨by decide, ?_, by decide, ?_⟩ <;>
  · simp only [fetchCar]
    split
    · rfl
    · split <;> rfl

/-- C10: when `output` is `undefined` or the empty string, every entry is written to its own
path, unchanged. -/
theorem filePath_no_override (p : Str) (entries : List Entry) :
    filePath none p = p ∧
    filePath (some []) p = p ∧
    (extractCar entries none).map FsOp.path = entries.map Entry.path ∧
    (extractCar entries (some [])).map FsOp.path = entries.map Entry.path := by
  refine ⟨rfl, rfl, ?_, ?_⟩ <;>
  · simp only [extractCar, List.map_map]
    apply List.map_congr_left
    intro file _
    by_cases h : file.type = .directory <;> simp [h, FsOp.path, filePath, toBoolean]

end IpfsGet
